import Mathlib

/- Verification of the real-time ECG ingestion and risk-scoring pipeline of
   src/web/how-my-heart/src/App.jsx: stream framing, record parsing, ring
   buffers, rhythm-irregularity estimation, risk scoring and the session
   flags.  Numbers are modelled exactly: voltages, timestamps and
   irregularity values as rationals, scores and bpm as integers; the one
   irrational quantity (the square root inside computeStats) is captured
   relationally by a non-negative real whose square is the variance. -/

/-- Character-level model of the split used by LineBreakTransformer
(App.jsx lines 4-15): scanning the text, every occurrence of the separator
ends a line; the result is the list of completed lines (separator
stripped) together with the trailing part after the last separator.  This
is JS split(sep) followed by pop() of the final element. -/
def splitSep (sep : Char) : List Char → List (List Char) × List Char
  | [] => ([], [])
  | c :: rest =>
    let r := splitSep sep rest
    if c = sep then ([] :: r.1, r.2)
    else
      match r.1 with
      | [] => ([], c :: r.2)
      | l :: ls => ((c :: l) :: ls, r.2)

/-- JS String.split(sep): all fields, including the one after the last
separator. -/
def jsSplit (sep : Char) (s : List Char) : List (List Char) :=
  (splitSep sep s).1 ++ [(splitSep sep s).2]

/-- One transform() call of LineBreakTransformer: append the chunk to the
pending container, emit every completed line, keep the trailing partial
as the new container. -/
def framerStepFn (acc : List (List Char) × List Char) (chunk : List Char) :
    List (List Char) × List Char :=
  (acc.1 ++ (splitSep '\n' (acc.2 ++ chunk)).1, (splitSep '\n' (acc.2 ++ chunk)).2)

/-- Feeding a sequence of chunks to a fresh LineBreakTransformer:
the emitted lines so far and the pending container. -/
def framerRun (chunks : List (List Char)) : List (List Char) × List Char :=
  chunks.foldl framerStepFn ([], [])

/-- The lines emitted after flush() (App.jsx 12-14): the pending container
is emitted as one extra line when non-empty (JS truthiness of a non-empty
string). -/
def framerFinalize (chunks : List (List Char)) : List (List Char) :=
  if (framerRun chunks).2 = [] then (framerRun chunks).1
  else (framerRun chunks).1 ++ [(framerRun chunks).2]

/-- slice(-n): the most recent up-to-n entries of a buffer. -/
def lastN {α : Type} (n : ℕ) (l : List α) : List α := l.drop (l.length - n)

/-- push followed by splice(0, length - C) when the length exceeds C
(App.jsx 322-328 for the two 1500-sample lead buffers, 339-342 for the
50-entry beat-timestamp buffer). -/
def ringPush {α : Type} (C : ℕ) (buf : List α) (x : α) : List α :=
  if (buf ++ [x]).length > C then (buf ++ [x]).drop ((buf ++ [x]).length - C)
  else buf ++ [x]

/-- push followed by shift() when the length exceeds C (App.jsx 347-350,
the 10-entry device irregularity history). -/
def ringPushShift {α : Type} (C : ℕ) (buf : List α) (x : α) : List α :=
  if (buf ++ [x]).length > C then (buf ++ [x]).drop 1
  else buf ++ [x]

/-- Pushing a whole sequence of items, one at a time, into an initially
empty splice-evicting buffer. -/
def rbRun {α : Type} (C : ℕ) (xs : List α) : List α := xs.foldl (ringPush C) []

/-- Pushing a whole sequence of items, one at a time, into an initially
empty shift-evicting buffer. -/
def rbRunShift {α : Type} (C : ℕ) (xs : List α) : List α :=
  xs.foldl (ringPushShift C) []

/-- computeStats (App.jsx 17-22): the arithmetic mean, 0 for an empty
array. -/
def jsMean (arr : List ℚ) : ℚ := if arr = [] then 0 else arr.sum / arr.length

/-- The population variance computed inside computeStats (App.jsx 20);
the sd of the source is its square root. -/
def jsVar (arr : List ℚ) : ℚ :=
  if arr = [] then 0
  else ((arr.map (fun b => (b - jsMean arr) ^ 2)).sum) / arr.length

/-- The consecutive inter-beat differences (App.jsx 73-74). -/
def ibisOf (beats : List ℚ) : List ℚ :=
  (beats.zip beats.tail).map (fun p => p.2 - p.1)

/-- The irregularity figure of one run of compute (App.jsx 66-80), as a
relation: Math.sqrt inside computeStats is captured exactly by a
non-negative real sd whose square is the population variance.  When the
device irregularity history is non-empty the figure is the mean of its
last up-to-5 entries; otherwise it is min 1 (cv * 3) over the last
up-to-8 inter-beat intervals, where cv = sd / mean when mean > 0 and 0
otherwise. -/
def IrregularityOf (history beats : List ℚ) (i : ℝ) : Prop :=
  if history = [] then
    ∃ sd : ℝ, 0 ≤ sd ∧ sd ^ 2 = (jsVar (lastN 8 (ibisOf beats)) : ℝ) ∧
      i = min 1 ((if 0 < jsMean (lastN 8 (ibisOf beats)) then
        sd / (jsMean (lastN 8 (ibisOf beats)) : ℝ) else 0) * 3)
  else i = (jsMean (lastN 5 history) : ℝ)

/-- Modelled from the wording of claim C2, for comparison with
IrregularityOf: here the intervals are the consecutive differences taken
over the most recent up-to-8 beat timestamps (hence at most 7 intervals),
with cv = sd / mean and cv = 0 when the mean is 0. -/
def IrregularityClaimedOf (history beats : List ℚ) (i : ℝ) : Prop :=
  if history = [] then
    ∃ sd : ℝ, 0 ≤ sd ∧ sd ^ 2 = (jsVar (ibisOf (lastN 8 beats)) : ℝ) ∧
      i = min 1 ((if jsMean (ibisOf (lastN 8 beats)) = 0 then 0 else
        sd / (jsMean (ibisOf (lastN 8 beats)) : ℝ)) * 3)
  else i = (jsMean (lastN 5 history) : ℝ)

/-- hr = bpm OR-default 70 (App.jsx 83): the JS falsy values null and 0
both fall back to 70. -/
def hrOf (bpm : Option ℤ) : ℤ :=
  match bpm with
  | none => 70
  | some b => if b = 0 then 70 else b

/-- The bradycardia contribution (App.jsx 86-90). -/
def bradyScore (hr : ℤ) : ℤ := if hr < 50 then 40 else if hr < 60 then 20 else 0

/-- The tachycardia contribution (App.jsx 91-93). -/
def tachyScore (hr : ℤ) : ℤ := if hr > 120 then 40 else if hr > 100 then 20 else 0

/-- The irregularity contribution (App.jsx 95) for a rational
irregularity: JS Math.round agrees with round on non-negative values. -/
def irrPoints (irr : ℚ) : ℤ := round (irr * 40)

/-- App.jsx 98-99. -/
def clampScore (x : ℤ) : ℤ := max 0 (min 100 x)

/-- App.jsx 101-104. -/
def levelOf (score : ℤ) : String :=
  if score ≥ 70 then "High" else if score ≥ 35 then "Moderate" else "Normal"

/-- The fixed description attached to each category (App.jsx 101-104). -/
def descOf (score : ℤ) : String :=
  if score ≥ 70 then
    "High concern: heart rate or rhythm suggest elevated risk - seek medical attention if symptomatic."
  else if score ≥ 35 then
    "Moderate concern: some abnormal findings. Consider monitoring and consulting a clinician."
  else "Heart rate and rhythm are within typical ranges."

structure HealthCat where
  level : String
  score : ℤ
  desc : String
deriving DecidableEq

structure Breakdown where
  brady : ℤ
  tachy : ℤ
  irregularity : ℤ
deriving DecidableEq

/-- The published pair of React state values: healthCategory and
breakdown. -/
structure Published where
  hc : HealthCat
  bd : Breakdown
deriving DecidableEq

/-- The insufficient-data health category (App.jsx 61). -/
def insufHC : HealthCat :=
  ⟨"Insufficient data", 0, "Need at least 3 beats to assess rhythm."⟩

/-- The pair of state updates of the scoring path (setBreakdown and
setHealthCategory, App.jsx 106-107), for a heart rate hr and an already
rounded irregularity contribution ip. -/
def publishScored (hr ip : ℤ) : Published :=
  ⟨⟨levelOf (clampScore (bradyScore hr + tachyScore hr + ip)),
    clampScore (bradyScore hr + tachyScore hr + ip),
    descOf (clampScore (bradyScore hr + tachyScore hr + ip))⟩,
   ⟨bradyScore hr, tachyScore hr, ip⟩⟩

/-- One run of compute (App.jsx 56-108) as a relation on the published
pair: when the device irregularity history is empty and fewer than 3 beat
timestamps exist, only healthCategory is replaced (by the
insufficient-data value) and breakdown is left untouched; otherwise both
are replaced from the current irregularity, with hr defaulting to 70. -/
def ComputeStep (history beats : List ℚ) (bpm : Option ℤ) (p q : Published) : Prop :=
  if history = [] ∧ beats.length < 3 then q = ⟨insufHC, p.bd⟩
  else ∃ i : ℝ, IrregularityOf history beats i ∧
    q = publishScored (hrOf bpm) (round (i * 40))

/-- The four data buffers of the session. -/
structure Buffers where
  samples : List ℚ
  samples2 : List ℚ
  beats : List ℚ
  irrHistory : List ℚ
deriving DecidableEq

/-- The Reading ingestion block (App.jsx 320-356), given the two parsed
lead voltages v1 (Lead I, field 0) and v2 (Lead II, field 1), the parsed
optional bpm and irregularity fields and the wall-clock time now.  Both
lead buffers are pushed unconditionally and trimmed to 1500 when the
primary buffer exceeds 1500 (a splice with a non-positive count removes
nothing, exactly like truncated subtraction in drop).  Only a positive
bpm pushes now into beats, and only inside that branch a non-negative
irregularity value is pushed into the device history. -/
def ingestReading (st : Buffers) (v1 v2 : ℚ) (bpm : Option ℤ) (irr : Option ℚ)
    (now : ℚ) : Buffers :=
  let s1 := st.samples ++ [v2]
  let s2 := st.samples2 ++ [v1]
  let st1 : Buffers :=
    if s1.length > 1500 then
      ⟨s1.drop (s1.length - 1500), s2.drop (s2.length - 1500), st.beats, st.irrHistory⟩
    else ⟨s1, s2, st.beats, st.irrHistory⟩
  match bpm with
  | none => st1
  | some b =>
    if 0 < b then
      let st2 : Buffers := { st1 with beats := ringPush 50 st1.beats now }
      match irr with
      | none => st2
      | some x =>
        if 0 ≤ x then { st2 with irrHistory := ringPushShift 10 st2.irrHistory x }
        else st2
    else st1

/-- The two calibration-related flags. -/
structure Sess where
  calibrating : Bool
  monitoring : Bool
deriving DecidableEq

/-- The three triggers that interact with the calibration flags. -/
inductive SessEvent
  | timerFire
  | bpmReading
  | statusComplete
deriving DecidableEq

/-- Flag updates of the three triggers: the 4-second timer callback
(App.jsx 282-285) clears calibrating and sets monitoring; a positive
device bpm reading only forces monitoring on (App.jsx 354, the guard on
the stale monitoringActive value makes no observable difference); a
status line containing Complete only clears the calibrating flag
(App.jsx 306-308). -/
def sessStep (s : Sess) (e : SessEvent) : Sess :=
  match e with
  | .timerFire => ⟨false, true⟩
  | .bpmReading => ⟨s.calibrating, true⟩
  | .statusComplete => ⟨false, s.monitoring⟩

/-- The app-level state touched by connect, disconnect and the read-loop
catch handler. -/
structure AppState where
  port : Bool
  calibrating : Bool
  monitoring : Bool
  bpm : Option ℤ
  bufs : Buffers
deriving DecidableEq

/-- connectSerial after a successful open (App.jsx 277-279): the buffers
are not touched here. -/
def connectOpen (s : AppState) : AppState :=
  { s with port := true, calibrating := true, monitoring := false }

/-- disconnectSerial (App.jsx 365-379): a no-op without a port, otherwise
every flag is reset and all four buffers are cleared. -/
def disconnectSerial (s : AppState) : AppState :=
  if s.port then
    { port := false, calibrating := false, monitoring := false, bpm := none,
      bufs := ⟨[], [], [], []⟩ }
  else s

/-- The catch handler of connectSerial (App.jsx 359-362): a transport
failure only clears the calibrating flag; buffers, port, monitoring and
bpm are left as they are. -/
def serialCatchHandler (s : AppState) : AppState := { s with calibrating := false }

/-- The whitespace characters skipped by JS parseInt and parseFloat that
can occur in this stream. -/
def isWs (c : Char) : Bool := decide (c = ' ' ∨ c = '\t' ∨ c = '\n' ∨ c = '\r')

def isDigitC (c : Char) : Bool := decide ('0' ≤ c ∧ c ≤ '9')

def isHexC (c : Char) : Bool :=
  decide (('0' ≤ c ∧ c ≤ '9') ∨ ('a' ≤ c ∧ c ≤ 'f') ∨ ('A' ≤ c ∧ c ≤ 'F'))

def digToNat (c : Char) : ℕ := c.toNat - 48

def decToNat (ds : List Char) : ℕ := ds.foldl (fun a c => 10 * a + digToNat c) 0

def hexDigToNat (c : Char) : ℕ :=
  if isDigitC c then c.toNat - 48
  else if decide ('a' ≤ c ∧ c ≤ 'f') then c.toNat - 87
  else c.toNat - 55

def hexToNat (ds : List Char) : ℕ := ds.foldl (fun a c => 16 * a + hexDigToNat c) 0

/-- JS parseInt with an undefined radix, on the part after the optional
sign: a 0x or 0X prefix switches to hexadecimal, otherwise the longest
leading run of decimal digits is taken and everything after it is
ignored; no digits at all gives NaN (none). -/
def parseIntNoSign (l : List Char) : Option ℕ :=
  match l with
  | '0' :: 'x' :: rest =>
    if rest.takeWhile isHexC = [] then none else some (hexToNat (rest.takeWhile isHexC))
  | '0' :: 'X' :: rest =>
    if rest.takeWhile isHexC = [] then none else some (hexToNat (rest.takeWhile isHexC))
  | _ =>
    if l.takeWhile isDigitC = [] then none
    else some (decToNat (l.takeWhile isDigitC))

/-- The signed digit run of a float exponent; 0 when malformed (parseFloat
then backtracks to the longest valid literal). -/
def expValSigned (l : List Char) : ℤ :=
  match l with
  | '-' :: r =>
    if r.takeWhile isDigitC = [] then 0 else -(decToNat (r.takeWhile isDigitC) : ℤ)
  | '+' :: r =>
    if r.takeWhile isDigitC = [] then 0 else (decToNat (r.takeWhile isDigitC) : ℤ)
  | r => if r.takeWhile isDigitC = [] then 0 else (decToNat (r.takeWhile isDigitC) : ℤ)

/-- The exponent part of a JS float literal: the power of 10 applied to
the mantissa, 0 when no well-formed exponent follows. -/
def expVal (l : List Char) : ℤ :=
  match l with
  | 'e' :: rest => expValSigned rest
  | 'E' :: rest => expValSigned rest
  | _ => 0

/-- JS parseFloat on the part after the optional sign: integer digits, an
optional fraction, an optional exponent, trailing garbage ignored; NaN
(none) when neither integer nor fraction digits are present.  Values are
modelled exactly as rationals; the Infinity literal is outside this
model. -/
def parseFloatNoSign (l : List Char) : Option ℚ :=
  let ds := l.takeWhile isDigitC
  let r1 := l.drop ds.length
  let fs := match r1 with
    | '.' :: t => t.takeWhile isDigitC
    | _ => []
  let r2 := match r1 with
    | '.' :: t => t.drop (t.takeWhile isDigitC).length
    | _ => r1
  if ds = [] ∧ fs = [] then none
  else some (((decToNat ds : ℚ) + (decToNat fs : ℚ) / (10 : ℚ) ^ fs.length) *
    (10 : ℚ) ^ expVal r2)

/-- parseInt(parts[k]) as used at App.jsx 317: skip whitespace, optional
sign, then the unsigned part. -/
def jsParseInt (s : List Char) : Option ℤ :=
  match s.dropWhile isWs with
  | '-' :: rest => (parseIntNoSign rest).map (fun n => -(n : ℤ))
  | '+' :: rest => (parseIntNoSign rest).map (fun n => (n : ℤ))
  | rest => (parseIntNoSign rest).map (fun n => (n : ℤ))

/-- parseFloat(parts[k]) as used at App.jsx 315-318. -/
def jsParseFloat (s : List Char) : Option ℚ :=
  match s.dropWhile isWs with
  | '-' :: rest => (parseFloatNoSign rest).map (fun q => -q)
  | '+' :: rest => parseFloatNoSign rest
  | rest => parseFloatNoSign rest

/-- The parse result of one data line: the two lead voltages and the two
optional trailing fields.  A none in bpm or irr covers both a missing
field and a NaN parse, which the ingestion guards treat identically. -/
structure ParsedLine where
  val1 : ℚ
  val2 : ℚ
  bpm : Option ℤ
  irr : Option ℚ
deriving DecidableEq

/-- App.jsx 313-320 applied to the comma-separated fields of a line that
passed the status-keyword filter: at least 2 fields, both lead fields
must parse or the line is discarded, the bpm and irregularity fields
become absent when missing or unparsable. -/
def parseParts (parts : List (List Char)) : Option ParsedLine :=
  match parts with
  | p0 :: p1 :: rest =>
    match jsParseFloat p0, jsParseFloat p1 with
    | some v1, some v2 =>
      some ⟨v1, v2, rest.head?.bind jsParseInt, (rest.drop 1).head?.bind jsParseFloat⟩
    | _, _ => none
  | _ => none

/-- One data line, split on commas and parsed. -/
def parseDataLine (line : List Char) : Option ParsedLine :=
  parseParts (jsSplit ',' line)

/-- A convenient concrete sequence of rational pushes for instantiations. -/
def qRange (n : ℕ) : List ℚ := List.map (fun k : ℕ => (k : ℚ)) (List.range n)

theorem lastN_length {α : Type} (n : ℕ) (l : List α) :
    (lastN n l).length = min n l.length := by
  simp only [lastN, List.length_drop]
  omega

theorem qRange_length (n : ℕ) : (qRange n).length = n := by
  unfold qRange
  rw [List.length_map, List.length_range]

theorem ringPush_lastN {α : Type} (C : ℕ) (xs : List α) (x : α) :
    ringPush C (lastN C xs) x = lastN C (xs ++ [x]) := by
  rcases le_or_lt C xs.length with hC | hC
  · have hlen : (lastN C xs).length = C := by rw [lastN_length]; omega
    have hcond : (lastN C xs ++ [x]).length > C := by
      simp [List.length_append, hlen]
    have hdrop : (lastN C xs ++ [x]).length - C = 1 := by
      simp [List.length_append, hlen]
    have e1 : lastN C xs ++ [x] = (xs ++ [x]).drop (xs.length - C) := by
      rw [lastN, List.drop_append_eq_append_drop]
      have h2 : xs.length - C - xs.length = 0 := by omega
      rw [h2, List.drop_zero]
    rw [ringPush, if_pos hcond, hdrop, e1, List.drop_drop, lastN]
    congr 1
    simp only [List.length_append, List.length_singleton]
    omega
  · have h0 : xs.length - C = 0 := by omega
    have hx : lastN C xs = xs := by rw [lastN, h0, List.drop_zero]
    rw [hx, ringPush, if_neg (by simp [List.length_append]; omega)]
    rw [lastN]
    have h1 : (xs ++ [x]).length - C = 0 := by simp [List.length_append]; omega
    rw [h1, List.drop_zero]

theorem ringPushShift_lastN {α : Type} (C : ℕ) (xs : List α) (x : α) :
    ringPushShift C (lastN C xs) x = lastN C (xs ++ [x]) := by
  rw [← ringPush_lastN]
  by_cases h : (lastN C xs ++ [x]).length > C
  · have hlen : (lastN C xs).length = min C xs.length := lastN_length C xs
    have hdrop : (lastN C xs ++ [x]).length - C = 1 := by
      simp only [List.length_append, List.length_singleton] at h ⊢
      omega
    rw [ringPushShift, if_pos h, ringPush, if_pos h, hdrop]
  · rw [ringPushShift, if_neg h, ringPush, if_neg h]

theorem rbRun_eq_lastN {α : Type} (C : ℕ) (xs : List α) : rbRun C xs = lastN C xs := by
  induction xs using List.reverseRecOn with
  | nil => simp [rbRun, lastN]
  | append_singleton ys y ih =>
    rw [rbRun, List.foldl_append, List.foldl_cons, List.foldl_nil]
    rw [show ys.foldl (ringPush C) [] = rbRun C ys from rfl, ih]
    exact ringPush_lastN C ys y

theorem rbRunShift_eq_lastN {α : Type} (C : ℕ) (xs : List α) :
    rbRunShift C xs = lastN C xs := by
  induction xs using List.reverseRecOn with
  | nil => simp [rbRunShift, lastN]
  | append_singleton ys y ih =>
    rw [rbRunShift, List.foldl_append, List.foldl_cons, List.foldl_nil]
    rw [show ys.foldl (ringPushShift C) [] = rbRunShift C ys from rfl, ih]
    exact ringPushShift_lastN C ys y

/-- C4: for each of the four ring buffers (the two 1500-sample lead
buffers, the 50-entry beat-timestamp buffer, the 10-entry device
irregularity history), pushing a sequence of more than C items into an
initially empty buffer leaves exactly the last C pushed items, in push
order, and no push sequence ever makes a buffer exceed its capacity. -/
theorem c4_ring_buffer_fifo (xs xs2 ts hs : List ℚ)
    (h1 : xs.length > 1500) (h2 : xs2.length > 1500)
    (h3 : ts.length > 50) (h4 : hs.length > 10) :
    ((rbRun 1500 xs).length = 1500 ∧ rbRun 1500 xs = lastN 1500 xs) ∧
    ((rbRun 1500 xs2).length = 1500 ∧ rbRun 1500 xs2 = lastN 1500 xs2) ∧
    ((rbRun 50 ts).length = 50 ∧ rbRun 50 ts = lastN 50 ts) ∧
    ((rbRunShift 10 hs).length = 10 ∧ rbRunShift 10 hs = lastN 10 hs) ∧
    (∀ (C : ℕ) (ys : List ℚ), (rbRun C ys).length ≤ C ∧ (rbRunShift C ys).length ≤ C) := by
  refine ⟨⟨?_, rbRun_eq_lastN _ _⟩, ⟨?_, rbRun_eq_lastN _ _⟩, ⟨?_, rbRun_eq_lastN _ _⟩,
    ⟨?_, rbRunShift_eq_lastN _ _⟩, ?_⟩
  · rw [rbRun_eq_lastN, lastN_length]; omega
  · rw [rbRun_eq_lastN, lastN_length]; omega
  · rw [rbRun_eq_lastN, lastN_length]; omega
  · rw [rbRunShift_eq_lastN, lastN_length]; omega
  · intro C ys
    constructor
    · rw [rbRun_eq_lastN, lastN_length]; omega
    · rw [rbRunShift_eq_lastN, lastN_length]; omega

/-- Witness for C4 at concrete push sequences longer than each capacity. -/
theorem c4_ring_buffer_fifo_witness :
    ((rbRun 1500 (qRange 1501)).length = 1500 ∧
      rbRun 1500 (qRange 1501) = lastN 1500 (qRange 1501)) ∧
    ((rbRun 1500 (qRange 1502)).length = 1500 ∧
      rbRun 1500 (qRange 1502) = lastN 1500 (qRange 1502)) ∧
    ((rbRun 50 (qRange 51)).length = 50 ∧ rbRun 50 (qRange 51) = lastN 50 (qRange 51)) ∧
    ((rbRunShift 10 (qRange 11)).length = 10 ∧
      rbRunShift 10 (qRange 11) = lastN 10 (qRange 11)) ∧
    (rbRun 7 (qRange 3)).length ≤ 7 ∧ (rbRunShift 7 (qRange 3)).length ≤ 7 :=
  have h := c4_ring_buffer_fifo (qRange 1501) (qRange 1502) (qRange 51) (qRange 11)
    (by rw [qRange_length]; omega) (by rw [qRange_length]; omega)
    (by rw [qRange_length]; omega) (by rw [qRange_length]; omega)
  ⟨h.1, h.2.1, h.2.2.1, h.2.2.2.1, h.2.2.2.2 7 (qRange 3)⟩

theorem round_nonneg_fr {α : Type} [LinearOrderedField α] [FloorRing α]
    (x : α) (h : 0 ≤ x) : 0 ≤ round x := by
  rw [round_eq]
  refine Int.le_floor.mpr ?_
  push_cast
  linarith

theorem round_le_forty {α : Type} [LinearOrderedField α] [FloorRing α]
    (x : α) (h : x ≤ 40) : round x ≤ 40 := by
  rw [round_eq, ← Int.lt_add_one_iff]
  refine Int.floor_lt.mpr ?_
  push_cast
  linarith

theorem clampScore_nonneg (x : ℤ) : 0 ≤ clampScore x := le_max_left 0 _

theorem clampScore_le_100 (x : ℤ) : clampScore x ≤ 100 :=
  max_le (by norm_num) (min_le_left 100 x)

/-- C1: for every heart rate and every irregularity in the unit interval,
the scorer computes the documented band constants, the rounded
irregularity contribution lies in 0..40, the clamped total lies in 0..100
and the category thresholds are 70 and 35. -/
theorem c1_risk_scorer_bands (hr : ℤ) (irr : ℚ) (h0 : 0 ≤ irr) (h1 : irr ≤ 1) :
    bradyScore hr = (if hr < 50 then 40 else if hr < 60 then 20 else 0) ∧
    tachyScore hr = (if hr > 120 then 40 else if hr > 100 then 20 else 0) ∧
    irrPoints irr = round (irr * 40) ∧
    0 ≤ irrPoints irr ∧ irrPoints irr ≤ 40 ∧
    clampScore (bradyScore hr + tachyScore hr + irrPoints irr) =
      max 0 (min 100 (bradyScore hr + tachyScore hr + irrPoints irr)) ∧
    0 ≤ clampScore (bradyScore hr + tachyScore hr + irrPoints irr) ∧
    clampScore (bradyScore hr + tachyScore hr + irrPoints irr) ≤ 100 ∧
    (∀ s : ℤ, levelOf s =
      if s ≥ 70 then "High" else if s ≥ 35 then "Moderate" else "Normal") := by
  refine ⟨rfl, rfl, rfl, ?_, ?_, rfl, clampScore_nonneg _, clampScore_le_100 _,
    fun s => rfl⟩
  · exact round_nonneg_fr _ (by nlinarith)
  · exact round_le_forty _ (by nlinarith)

/-- Witness for C1 at hr 70 and irregularity one half. -/
theorem c1_risk_scorer_bands_witness :
    bradyScore 70 = (if (70 : ℤ) < 50 then 40 else if (70 : ℤ) < 60 then 20 else 0) ∧
    tachyScore 70 = (if (70 : ℤ) > 120 then 40 else if (70 : ℤ) > 100 then 20 else 0) ∧
    irrPoints (1 / 2) = round ((1 / 2 : ℚ) * 40) ∧
    0 ≤ irrPoints (1 / 2) ∧ irrPoints (1 / 2) ≤ 40 ∧
    clampScore (bradyScore 70 + tachyScore 70 + irrPoints (1 / 2)) =
      max 0 (min 100 (bradyScore 70 + tachyScore 70 + irrPoints (1 / 2))) ∧
    0 ≤ clampScore (bradyScore 70 + tachyScore 70 + irrPoints (1 / 2)) ∧
    clampScore (bradyScore 70 + tachyScore 70 + irrPoints (1 / 2)) ≤ 100 ∧
    levelOf 80 =
      (if (80 : ℤ) ≥ 70 then "High" else if (80 : ℤ) ≥ 35 then "Moderate" else "Normal") :=
  have h := c1_risk_scorer_bands 70 (1 / 2) (by norm_num) (by norm_num)
  ⟨h.1, h.2.1, h.2.2.1, h.2.2.2.1, h.2.2.2.2.1, h.2.2.2.2.2.1, h.2.2.2.2.2.2.1,
    h.2.2.2.2.2.2.2.1, h.2.2.2.2.2.2.2.2 80⟩

theorem splitSep_partial_not_mem (sep : Char) (s : List Char) :
    sep ∉ (splitSep sep s).2 := by
  induction s with
  | nil => simp [splitSep]
  | cons c rest ih =>
    by_cases h : c = sep
    · simp [splitSep, h, ih]
    · cases hr : (splitSep sep rest).1 with
      | nil =>
        simp only [splitSep, hr, if_neg h, List.mem_cons, not_or]
        exact ⟨fun hc => h hc.symm, ih⟩
      | cons l ls =>
        simpa only [splitSep, hr, if_neg h] using ih

theorem splitSep_lines_not_mem (sep : Char) (s : List Char) :
    ∀ l ∈ (splitSep sep s).1, sep ∉ l := by
  induction s with
  | nil => simp [splitSep]
  | cons c rest ih =>
    by_cases h : c = sep
    · intro m hm
      simp only [splitSep, if_pos h, List.mem_cons] at hm
      rcases hm with rfl | hm
      · simp
      · exact ih m hm
    · cases hr : (splitSep sep rest).1 with
      | nil => simp [splitSep, h, hr]
      | cons l ls =>
        intro m hm
        simp only [splitSep, hr, if_neg h, List.mem_cons] at hm
        rcases hm with rfl | hm
        · simp only [List.mem_cons, not_or]
          exact ⟨fun hc => h hc.symm, ih l (by rw [hr]; exact List.mem_cons_self _ _)⟩
        · exact ih m (by rw [hr]; exact List.mem_cons_of_mem _ hm)

theorem splitSep_length_count (sep : Char) (s : List Char) :
    (splitSep sep s).1.length = s.count sep := by
  induction s with
  | nil => simp [splitSep]
  | cons c rest ih =>
    by_cases h : c = sep
    · simp [splitSep, h, List.count_cons, ih]
    · cases hr : (splitSep sep rest).1 with
      | nil =>
        rw [hr] at ih
        simp [splitSep, h, hr, List.count_cons, ← ih, Ne.symm h]
      | cons l ls =>
        rw [hr] at ih
        simp [splitSep, h, hr, List.count_cons, ← ih, Ne.symm h]

theorem splitSep_reconstruct (sep : Char) (s : List Char) :
    (List.map (fun l => l ++ [sep]) (splitSep sep s).1).flatten ++ (splitSep sep s).2 = s := by
  induction s with
  | nil => simp [splitSep]
  | cons c rest ih =>
    by_cases h : c = sep
    · subst h
      simpa [splitSep] using ih
    · cases hr : (splitSep sep rest).1 with
      | nil =>
        rw [hr] at ih
        simp only [List.map_nil, List.flatten_nil, List.nil_append] at ih
        simp [splitSep, h, hr, ih]
      | cons l ls =>
        rw [hr] at ih
        simp only [splitSep, hr, if_neg h]
        simp only [List.map_cons, List.flatten_cons, List.cons_append,
          List.append_assoc] at ih ⊢
        exact congrArg (fun w => c :: w) ih

theorem splitSep_of_not_mem (sep : Char) (s : List Char) (h : sep ∉ s) :
    splitSep sep s = ([], s) := by
  induction s with
  | nil => simp [splitSep]
  | cons c rest ih =>
    simp only [List.mem_cons, not_or] at h
    have h1 : ¬ c = sep := fun hc => h.1 hc.symm
    simp [splitSep, h1, ih h.2]

theorem splitSep_append (sep : Char) (u t : List Char) :
    splitSep sep (u ++ t) =
      ((splitSep sep u).1 ++ (splitSep sep ((splitSep sep u).2 ++ t)).1,
       (splitSep sep ((splitSep sep u).2 ++ t)).2) := by
  induction u with
  | nil => simp [splitSep]
  | cons c u ih =>
    simp only [List.cons_append, splitSep, List.append_eq]
    rw [ih]
    by_cases h : c = sep
    · simp [h]
    · simp only [if_neg h]
      cases hA : (splitSep sep u).1 with
      | nil =>
        simp only [hA, List.nil_append, List.cons_append, splitSep, List.append_eq]
        cases hB : (splitSep sep ((splitSep sep u).2 ++ t)).1 with
        | nil => simp [hB, if_neg h]
        | cons l ls => simp [hB, if_neg h]
      | cons l ls =>
        simp [hA, List.cons_append]

theorem framerRun_from (chunks : List (List Char)) :
    ∀ (L : List (List Char)) (c : List Char), '\n' ∉ c →
    chunks.foldl framerStepFn (L, c) =
      (L ++ (splitSep '\n' (c ++ chunks.flatten)).1,
       (splitSep '\n' (c ++ chunks.flatten)).2) := by
  induction chunks with
  | nil =>
    intro L c hc
    simp [splitSep_of_not_mem '\n' c hc]
  | cons ch rest ih =>
    intro L c hc
    rw [List.foldl_cons]
    rw [ih (framerStepFn (L, c) ch).1 (framerStepFn (L, c) ch).2
      (splitSep_partial_not_mem '\n' (c ++ ch))]
    have key := splitSep_append '\n' (c ++ ch) rest.flatten
    rw [List.flatten_cons, show c ++ (ch ++ rest.flatten) = (c ++ ch) ++ rest.flatten from
      (List.append_assoc c ch rest.flatten).symm, key]
    simp [framerStepFn, List.append_assoc]

theorem framerRun_eq (chunks : List (List Char)) :
    framerRun chunks = splitSep '\n' chunks.flatten := by
  rw [framerRun, framerRun_from chunks [] [] (by simp)]
  simp

/-- C5: the Line Framer is chunk-size invariant: feeding any chunking of a
fixed text emits exactly the lines determined by the concatenated text,
their number equals the number of newline delimiters, each emitted line
contains no delimiter, the emitted lines interleaved with delimiters
followed by the pending partial reconstruct the text, and finalization
emits the non-empty partial as one extra line (N lines when the partial
is empty, N + 1 otherwise). -/
theorem c5_line_framer_chunk_invariance (chunks : List (List Char)) :
    framerRun chunks = splitSep '\n' chunks.flatten ∧
    (framerRun chunks).1.length = chunks.flatten.count '\n' ∧
    (∀ l ∈ (framerRun chunks).1, '\n' ∉ l) ∧
    (List.map (fun l => l ++ ['\n']) (framerRun chunks).1).flatten ++ (framerRun chunks).2 =
      chunks.flatten ∧
    ((framerRun chunks).2 = [] →
      (framerFinalize chunks).length = chunks.flatten.count '\n') ∧
    ((framerRun chunks).2 ≠ [] →
      (framerFinalize chunks).length = chunks.flatten.count '\n' + 1) := by
  have he := framerRun_eq chunks
  refine ⟨he, ?_, ?_, ?_, ?_, ?_⟩
  · rw [he, splitSep_length_count]
  · rw [he]; exact splitSep_lines_not_mem '\n' chunks.flatten
  · rw [he]; exact splitSep_reconstruct '\n' chunks.flatten
  · intro hp
    rw [framerFinalize, if_pos hp, he, splitSep_length_count]
  · intro hp
    rw [framerFinalize, if_neg hp, List.length_append, List.length_singleton,
      he, splitSep_length_count]

/-- Witness for C5 at a concrete chunking that splits a line across two
chunks and leaves a trailing partial. -/
theorem c5_line_framer_chunk_invariance_witness :
    framerRun [['a'], ['b', '\n', 'c']] =
      splitSep '\n' [['a'], ['b', '\n', 'c']].flatten ∧
    (framerRun [['a'], ['b', '\n', 'c']]).1.length =
      [['a'], ['b', '\n', 'c']].flatten.count '\n' ∧
    (List.map (fun l => l ++ ['\n']) (framerRun [['a'], ['b', '\n', 'c']]).1).flatten ++
        (framerRun [['a'], ['b', '\n', 'c']]).2 = [['a'], ['b', '\n', 'c']].flatten ∧
    (framerFinalize [['a'], ['b', '\n', 'c']]).length =
      [['a'], ['b', '\n', 'c']].flatten.count '\n' + 1 :=
  have h := c5_line_framer_chunk_invariance [['a'], ['b', '\n', 'c']]
  ⟨h.1, h.2.1, h.2.2.2.1, h.2.2.2.2.2 (by decide)⟩

theorem jsMean_nonneg (arr : List ℚ) (h : ∀ x ∈ arr, 0 ≤ x) : 0 ≤ jsMean arr := by
  rw [jsMean]
  split
  · exact le_refl 0
  · exact div_nonneg (List.sum_nonneg h) (Nat.cast_nonneg _)

theorem irregularity_nonneg (history beats : List ℚ) (i : ℝ)
    (hpos : ∀ x ∈ history, 0 ≤ x) (h : IrregularityOf history beats i) : 0 ≤ i := by
  by_cases hh : history = []
  · rw [IrregularityOf, if_pos hh] at h
    obtain ⟨sd, hsd0, _, hi⟩ := h
    rw [hi]
    refine le_min (by norm_num) (mul_nonneg ?_ (by norm_num))
    rcases lt_or_le 0 (jsMean (lastN 8 (ibisOf beats))) with hm | hm
    · rw [if_pos hm]
      exact div_nonneg hsd0 (by exact_mod_cast hm.le)
    · rw [if_neg (not_lt.mpr hm)]
  · rw [IrregularityOf, if_neg hh] at h
    rw [h]
    exact_mod_cast jsMean_nonneg _ (fun x hx => hpos x (List.drop_subset _ _ hx))

theorem irregularity_le_one (history beats : List ℚ) (i : ℝ)
    (hh : history = []) (h : IrregularityOf history beats i) : i ≤ 1 := by
  rw [IrregularityOf, if_pos hh] at h
  obtain ⟨sd, _, _, hi⟩ := h
  rw [hi]
  exact min_le_left _ _

/-- C2 amended: the irregularity figure equals the mean of the most
recent up-to-5 device history entries when the history is non-empty (a
value that is only known to be non-negative, not bounded by 1), and
otherwise min 1 (cv * 3) over the most recent up-to-8 inter-beat
intervals, i.e. the intervals among the most recent up-to-9 beat
timestamps, with cv = sd / mean when mean > 0 and cv = 0 otherwise; only
in this fallback branch is the result always in the unit interval. -/
theorem c2_rhythm_estimator_amended (history beats : List ℚ) (i : ℝ)
    (hpos : ∀ x ∈ history, 0 ≤ x) (h : IrregularityOf history beats i) :
    (history ≠ [] → i = (jsMean (lastN 5 history) : ℝ) ∧ 0 ≤ i) ∧
    (history = [] →
      (∃ sd : ℝ, 0 ≤ sd ∧ sd ^ 2 = (jsVar (lastN 8 (ibisOf beats)) : ℝ) ∧
        i = min 1 ((if 0 < jsMean (lastN 8 (ibisOf beats)) then
          sd / (jsMean (lastN 8 (ibisOf beats)) : ℝ) else 0) * 3)) ∧
      0 ≤ i ∧ i ≤ 1) := by
  constructor
  · intro hne
    have h' := h
    rw [IrregularityOf, if_neg hne] at h'
    exact ⟨h', irregularity_nonneg history beats i hpos h⟩
  · intro he
    have h' := h
    rw [IrregularityOf, if_pos he] at h'
    exact ⟨h', irregularity_nonneg history beats i hpos h,
      irregularity_le_one history beats i he h⟩

/-- Witness for the amended C2 at history [1/2]. -/
theorem c2_rhythm_estimator_amended_witness :
    (1 : ℝ)/2 = (jsMean (lastN 5 [(1 : ℚ)/2]) : ℝ) ∧ 0 ≤ (1 : ℝ)/2 :=
  (c2_rhythm_estimator_amended [(1 : ℚ)/2] [] ((1 : ℝ)/2)
    (by intro x hx; simp at hx; rw [hx]; norm_num)
    (by rw [IrregularityOf, if_neg (by simp)]; norm_num [jsMean, lastN])).1
    (by simp)

/-- C2 counterexample: the claim fails twice on the code.  First, with
device history [5/2] the irregularity is 5/2, outside the unit interval.
Second, with the nine beat timestamps 0, 2, 3, ..., 9 the value claimed
(intervals over the most recent 8 timestamps, which are evenly spaced)
is 0, while the value the code computes (the most recent 8 intervals,
which include the outlier 2) is necessarily non-zero. -/
theorem c2_rhythm_estimator_counterexample :
    (IrregularityOf [5/2] [] ((5 : ℝ)/2) ∧ ¬ ((5 : ℝ)/2 ≤ 1)) ∧
    IrregularityClaimedOf [] [0, 2, 3, 4, 5, 6, 7, 8, 9] 0 ∧
    (∀ i : ℝ, IrregularityOf [] [0, 2, 3, 4, 5, 6, 7, 8, 9] i → i ≠ 0) := by
  have hl : lastN 8 (ibisOf ([0, 2, 3, 4, 5, 6, 7, 8, 9] : List ℚ)) =
      [2, 1, 1, 1, 1, 1, 1, 1] := by
    simp [ibisOf, lastN]
    norm_num
  have hl2 : ibisOf (lastN 8 ([0, 2, 3, 4, 5, 6, 7, 8, 9] : List ℚ)) =
      [1, 1, 1, 1, 1, 1, 1] := by
    simp [ibisOf, lastN]
    norm_num
  have hm : jsMean [2, 1, 1, 1, 1, 1, 1, 1] = 9/8 := by
    rw [jsMean, if_neg (List.cons_ne_nil _ _)]
    norm_num
  have hv : jsVar [2, 1, 1, 1, 1, 1, 1, 1] = 7/64 := by
    rw [jsVar, if_neg (List.cons_ne_nil _ _)]
    simp only [hm]
    norm_num
  have hm2 : jsMean [1, 1, 1, 1, 1, 1, 1] = 1 := by
    rw [jsMean, if_neg (List.cons_ne_nil _ _)]
    norm_num
  have hv2 : jsVar [1, 1, 1, 1, 1, 1, 1] = 0 := by
    rw [jsVar, if_neg (List.cons_ne_nil _ _)]
    simp only [hm2]
    norm_num
  refine ⟨⟨?_, by norm_num⟩, ?_, ?_⟩
  · rw [IrregularityOf, if_neg (by simp)]
    norm_num [jsMean, lastN]
  · rw [IrregularityClaimedOf, if_pos rfl]
    refine ⟨0, le_refl 0, ?_, ?_⟩
    · rw [hl2, hv2]
      norm_num
    · rw [hl2, hm2, if_neg one_ne_zero]
      norm_num
  · intro i hi
    rw [IrregularityOf, if_pos rfl] at hi
    obtain ⟨sd, hsd0, hsd2, hival⟩ := hi
    rw [hl, hv] at hsd2
    rw [hl, hm] at hival
    have hsd2r : sd ^ 2 = (7 : ℝ)/64 := by rw [hsd2]; norm_num
    have hsdpos : 0 < sd := by
      rcases eq_or_lt_of_le hsd0 with h0 | h0
      · exfalso
        rw [← h0] at hsd2r
        norm_num at hsd2r
      · exact h0
    rw [if_pos (by norm_num)] at hival
    have hpos : 0 < min 1 (sd / ((9/8 : ℚ) : ℝ) * 3) := by
      refine lt_min one_pos (mul_pos (div_pos hsdpos (by norm_num)) (by norm_num))
    rw [hival]
    exact ne_of_gt hpos

theorem bradyScore_mem (hr : ℤ) :
    bradyScore hr = 0 ∨ bradyScore hr = 20 ∨ bradyScore hr = 40 := by
  rw [bradyScore]
  split
  · exact Or.inr (Or.inr rfl)
  · split
    · exact Or.inr (Or.inl rfl)
    · exact Or.inl rfl

theorem tachyScore_mem (hr : ℤ) :
    tachyScore hr = 0 ∨ tachyScore hr = 20 ∨ tachyScore hr = 40 := by
  rw [tachyScore]
  split
  · exact Or.inr (Or.inr rfl)
  · split
    · exact Or.inr (Or.inl rfl)
    · exact Or.inl rfl

/-- C3: whenever the device irregularity history is empty and fewer than
3 beat timestamps exist, one compute run short-circuits to the
insufficient-data category with score 0 instead of computing a score; in
every other buffer state it publishes a scored assessment derived from
the current irregularity figure. -/
theorem c3_insufficient_data_short_circuit (history beats : List ℚ) (bpm : Option ℤ)
    (p q : Published) (h : ComputeStep history beats bpm p q) :
    (history = [] ∧ beats.length < 3 →
      q.hc = insufHC ∧ q.hc.score = 0 ∧ q.hc.level = "Insufficient data") ∧
    (¬ (history = [] ∧ beats.length < 3) →
      ∃ i : ℝ, IrregularityOf history beats i ∧
        q = publishScored (hrOf bpm) (round (i * 40)) ∧
        q.hc.score =
          clampScore (bradyScore (hrOf bpm) + tachyScore (hrOf bpm) + round (i * 40))) := by
  constructor
  · intro hc
    rw [ComputeStep, if_pos hc] at h
    rw [h]
    exact ⟨rfl, rfl, rfl⟩
  · intro hc
    rw [ComputeStep, if_neg hc] at h
    obtain ⟨i, hi, hq⟩ := h
    exact ⟨i, hi, hq, by rw [hq]; rfl⟩

/-- Witness for C3 at empty buffers. -/
theorem c3_insufficient_data_short_circuit_witness :
    (⟨insufHC, ⟨0, 0, 0⟩⟩ : Published).hc = insufHC ∧
    (⟨insufHC, ⟨0, 0, 0⟩⟩ : Published).hc.score = 0 ∧
    (⟨insufHC, ⟨0, 0, 0⟩⟩ : Published).hc.level = "Insufficient data" :=
  (c3_insufficient_data_short_circuit [] [] none ⟨insufHC, ⟨0, 0, 0⟩⟩
    ⟨insufHC, ⟨0, 0, 0⟩⟩
    (by rw [ComputeStep, if_pos ⟨rfl, by norm_num⟩])).1 ⟨rfl, by norm_num⟩

/-- C7 amended: in every scoring run the published pair satisfies the
claimed invariant except that the irregularity points are only bounded
above by 40 when the history is empty (device-supplied history values
above 1 push them higher); the insufficient-data run replaces only the
health category (score 0) and leaves the previous breakdown in place, so
the clamped-sum equation can fail there. -/
theorem c7_assessment_invariant_amended (history beats : List ℚ) (bpm : Option ℤ)
    (p q : Published) (hpos : ∀ x ∈ history, 0 ≤ x)
    (h : ComputeStep history beats bpm p q) :
    (¬ (history = [] ∧ beats.length < 3) →
      (q.bd.brady = 0 ∨ q.bd.brady = 20 ∨ q.bd.brady = 40) ∧
      (q.bd.tachy = 0 ∨ q.bd.tachy = 20 ∨ q.bd.tachy = 40) ∧
      0 ≤ q.bd.irregularity ∧
      q.hc.score = clampScore (q.bd.brady + q.bd.tachy + q.bd.irregularity) ∧
      0 ≤ q.hc.score ∧ q.hc.score ≤ 100 ∧
      (history = [] → q.bd.irregularity ≤ 40)) ∧
    (history = [] ∧ beats.length < 3 → q.hc = insufHC ∧ q.bd = p.bd) := by
  constructor
  · intro hc
    rw [ComputeStep, if_neg hc] at h
    obtain ⟨i, hi, hq⟩ := h
    have hi0 : 0 ≤ i := irregularity_nonneg history beats i hpos hi
    subst hq
    refine ⟨bradyScore_mem _, tachyScore_mem _, ?_, rfl, clampScore_nonneg _,
      clampScore_le_100 _, ?_⟩
    · exact round_nonneg_fr _ (mul_nonneg hi0 (by norm_num))
    · intro he
      have hi1 : i ≤ 1 := irregularity_le_one history beats i he hi
      exact round_le_forty _ (by nlinarith)
  · intro hc
    rw [ComputeStep, if_pos hc] at h
    rw [h]
    exact ⟨rfl, rfl⟩

/-- Witness for the amended C7 at history [1/2] and no bpm. -/
theorem c7_assessment_invariant_amended_witness :
    ((publishScored 70 20).bd.brady = 0 ∨ (publishScored 70 20).bd.brady = 20 ∨
      (publishScored 70 20).bd.brady = 40) ∧
    ((publishScored 70 20).bd.tachy = 0 ∨ (publishScored 70 20).bd.tachy = 20 ∨
      (publishScored 70 20).bd.tachy = 40) ∧
    0 ≤ (publishScored 70 20).bd.irregularity ∧
    (publishScored 70 20).hc.score = clampScore ((publishScored 70 20).bd.brady +
      (publishScored 70 20).bd.tachy + (publishScored 70 20).bd.irregularity) ∧
    0 ≤ (publishScored 70 20).hc.score ∧ (publishScored 70 20).hc.score ≤ 100 :=
  have h := (c7_assessment_invariant_amended [(1 : ℚ)/2] [] none ⟨insufHC, ⟨0, 0, 0⟩⟩
    (publishScored 70 20)
    (by intro x hx; simp at hx; rw [hx]; norm_num)
    (by
      rw [ComputeStep, if_neg (by simp)]
      refine ⟨(1 : ℝ)/2, ?_, ?_⟩
      · rw [IrregularityOf, if_neg (by simp)]
        norm_num [jsMean, lastN]
      · have h20 : round (((1 : ℝ)/2) * 40) = 20 := by
          rw [show ((1 : ℝ)/2) * 40 = ((20 : ℤ) : ℝ) by norm_num, round_intCast]
        rw [h20]
        rfl)).1 (by simp)
  ⟨h.1, h.2.1, h.2.2.1, h.2.2.2.1, h.2.2.2.2.1, h.2.2.2.2.2.1⟩

/-- C7 counterexample: starting from a published pair whose breakdown is
40 brady points, the insufficient-data run publishes score 0 while
keeping that breakdown, so the clamped sum 40 differs from the published
score; and with device history [5/2] the scoring run publishes 100
irregularity points, outside 0..40. -/
theorem c7_assessment_invariant_counterexample :
    ComputeStep [] [] none ⟨⟨"Moderate", 40, descOf 40⟩, ⟨40, 0, 0⟩⟩
      ⟨insufHC, ⟨40, 0, 0⟩⟩ ∧
    clampScore (40 + 0 + 0) ≠ (⟨insufHC, ⟨40, 0, 0⟩⟩ : Published).hc.score ∧
    ComputeStep [5/2] [] none ⟨⟨"Moderate", 40, descOf 40⟩, ⟨40, 0, 0⟩⟩
      (publishScored 70 100) ∧
    ¬ ((publishScored 70 100).bd.irregularity ≤ 40) := by
  refine ⟨?_, ?_, ?_, ?_⟩
  · rw [ComputeStep, if_pos ⟨rfl, by norm_num⟩]
  · simp [clampScore, insufHC]
  · rw [ComputeStep, if_neg (by simp)]
    refine ⟨(5 : ℝ)/2, ?_, ?_⟩
    · rw [IrregularityOf, if_neg (by simp)]
      norm_num [jsMean, lastN]
    · have h100 : round (((5 : ℝ)/2) * 40) = 100 := by
        rw [show ((5 : ℝ)/2) * 40 = ((100 : ℤ) : ℝ) by norm_num, round_intCast]
      rw [h100]
      rfl
  · show ¬ ((100 : ℤ) ≤ 40)
    norm_num

/-- C6 counterexample: a Reading carrying an irregularity value but no
bpm field leaves the device irregularity history untouched, although the
claim requires the value to be pushed. -/
theorem c6_ingestion_counterexample :
    (ingestReading ⟨[], [], [], []⟩ (1/10) (1/5) none (some (1/2)) 1000).irrHistory = [] ∧
    ringPushShift 10 ([] : List ℚ) (1/2) = [1/2] ∧
    ([] : List ℚ) ≠ [1/2] := by
  refine ⟨rfl, rfl, by simp⟩

/-- C6 amended: the two lead voltages are pushed unconditionally; the
ingestion time is pushed into beats exactly when bpm is present and
positive; the irregularity value is pushed into the device history only
when, in the same Reading, bpm is present and positive and the value is
non-negative — not whenever the value is present. -/
theorem c6_ingestion_amended (st : Buffers) (v1 v2 : ℚ) (bpm : Option ℤ)
    (irr : Option ℚ) (now : ℚ) (hlen : st.samples.length = st.samples2.length) :
    (ingestReading st v1 v2 bpm irr now).samples = ringPush 1500 st.samples v2 ∧
    (ingestReading st v1 v2 bpm irr now).samples2 = ringPush 1500 st.samples2 v1 ∧
    (ingestReading st v1 v2 bpm irr now).beats =
      (match bpm with
       | some b => if 0 < b then ringPush 50 st.beats now else st.beats
       | none => st.beats) ∧
    (ingestReading st v1 v2 bpm irr now).irrHistory =
      (match bpm, irr with
       | some b, some x =>
         if 0 < b ∧ 0 ≤ x then ringPushShift 10 st.irrHistory x else st.irrHistory
       | _, _ => st.irrHistory) := by
  by_cases hA : 1500 < st.samples.length + 1
  · have hB : 1500 < st.samples2.length + 1 := by omega
    cases bpm with
    | none =>
      refine ⟨?_, ?_, ?_, ?_⟩ <;>
        simp [ingestReading, ringPush, ringPushShift, List.length_append,
          List.length_singleton, hA, hB]
    | some b =>
      cases irr with
      | none =>
        by_cases hb : 0 < b <;>
          refine ⟨?_, ?_, ?_, ?_⟩ <;>
            simp [ingestReading, ringPush, ringPushShift, List.length_append,
              List.length_singleton, hA, hB, hb]
      | some x =>
        by_cases hb : 0 < b <;> by_cases hx : 0 ≤ x <;>
          refine ⟨?_, ?_, ?_, ?_⟩ <;>
            simp [ingestReading, ringPush, ringPushShift, List.length_append,
              List.length_singleton, hA, hB, hb, hx]
  · have hB : ¬ 1500 < st.samples2.length + 1 := by omega
    cases bpm with
    | none =>
      refine ⟨?_, ?_, ?_, ?_⟩ <;>
        simp [ingestReading, ringPush, ringPushShift, List.length_append,
          List.length_singleton, hA, hB]
    | some b =>
      cases irr with
      | none =>
        by_cases hb : 0 < b <;>
          refine ⟨?_, ?_, ?_, ?_⟩ <;>
            simp [ingestReading, ringPush, ringPushShift, List.length_append,
              List.length_singleton, hA, hB, hb]
      | some x =>
        by_cases hb : 0 < b <;> by_cases hx : 0 ≤ x <;>
          refine ⟨?_, ?_, ?_, ?_⟩ <;>
            simp [ingestReading, ringPush, ringPushShift, List.length_append,
              List.length_singleton, hA, hB, hb, hx]

/-- Witness for the amended C6 at empty buffers, bpm 72, irregularity
one half. -/
theorem c6_ingestion_amended_witness :
    (ingestReading ⟨[], [], [], []⟩ 1 2 (some 72) (some (1/2)) 5).samples =
      ringPush 1500 ([] : List ℚ) 2 ∧
    (ingestReading ⟨[], [], [], []⟩ 1 2 (some 72) (some (1/2)) 5).samples2 =
      ringPush 1500 ([] : List ℚ) 1 ∧
    (ingestReading ⟨[], [], [], []⟩ 1 2 (some 72) (some (1/2)) 5).beats =
      (match (some 72 : Option ℤ) with
       | some b => if 0 < b then ringPush 50 ([] : List ℚ) 5 else ([] : List ℚ)
       | none => ([] : List ℚ)) ∧
    (ingestReading ⟨[], [], [], []⟩ 1 2 (some 72) (some (1/2)) 5).irrHistory =
      (match (some 72 : Option ℤ), (some (1/2) : Option ℚ) with
       | some b, some x =>
         if 0 < b ∧ 0 ≤ x then ringPushShift 10 ([] : List ℚ) x else ([] : List ℚ)
       | _, _ => ([] : List ℚ)) :=
  c6_ingestion_amended ⟨[], [], [], []⟩ 1 2 (some 72) (some (1/2)) 5 rfl

/-- C8 counterexample: from the calibrating state, a bpm arrival leaves
the calibrating flag set (it only activates monitoring) and a completion
status line leaves monitoring inactive (it only clears calibrating), so
neither trigger alone reaches the state with calibration ended and
monitoring active; only the 4-second timer does. -/
theorem c8_calibration_triggers_counterexample :
    sessStep ⟨true, false⟩ SessEvent.bpmReading ≠ ⟨false, true⟩ ∧
    sessStep ⟨true, false⟩ SessEvent.statusComplete ≠ ⟨false, true⟩ ∧
    sessStep ⟨true, false⟩ SessEvent.timerFire = ⟨false, true⟩ := by
  refine ⟨by decide, by decide, rfl⟩

/-- C8 amended: the 4-second timer both ends calibration and activates
monitoring; a device bpm reading while calibrating activates monitoring
immediately but leaves the calibrating flag unchanged; a status line
signalling completion ends calibration but does not activate
monitoring. -/
theorem c8_calibration_triggers_amended (s : Sess) :
    sessStep s SessEvent.timerFire = ⟨false, true⟩ ∧
    (sessStep s SessEvent.bpmReading).monitoring = true ∧
    (sessStep s SessEvent.bpmReading).calibrating = s.calibrating ∧
    (sessStep s SessEvent.statusComplete).calibrating = false ∧
    (sessStep s SessEvent.statusComplete).monitoring = s.monitoring :=
  ⟨rfl, rfl, rfl, rfl, rfl⟩

/-- C9 counterexample: a transport failure during a session with
non-empty buffers leaves every buffer as it was (the catch handler only
clears the calibrating flag) and does not even clear the port, so the
claimed buffer clearing on the transport-failure transition does not
happen. -/
theorem c9_disconnect_clears_counterexample :
    (serialCatchHandler ⟨true, true, true, some 72, ⟨[1], [2], [3], [4]⟩⟩).bufs =
      ⟨[1], [2], [3], [4]⟩ ∧
    (⟨[1], [2], [3], [4]⟩ : Buffers) ≠ ⟨[], [], [], []⟩ ∧
    (serialCatchHandler ⟨true, true, true, some 72, ⟨[1], [2], [3], [4]⟩⟩).port = true := by
  refine ⟨rfl, by simp, rfl⟩

/-- C9 amended: an explicit disconnect request with a connected port
clears all four buffers and resets bpm and the flags, so a subsequent
reconnect (which does not touch buffers) starts with every buffer empty
and the calibrating flag set; a transport failure, by contrast, leaves
the buffers, the port and the monitoring flag unchanged and only clears
the calibrating flag. -/
theorem c9_disconnect_clears_amended (s : AppState) (hp : s.port = true) :
    (disconnectSerial s).bufs = ⟨[], [], [], []⟩ ∧
    (disconnectSerial s).port = false ∧
    (disconnectSerial s).bpm = none ∧
    (connectOpen (disconnectSerial s)).bufs = ⟨[], [], [], []⟩ ∧
    (connectOpen (disconnectSerial s)).calibrating = true ∧
    (serialCatchHandler s).bufs = s.bufs ∧
    (serialCatchHandler s).calibrating = false ∧
    (serialCatchHandler s).port = s.port ∧
    (serialCatchHandler s).monitoring = s.monitoring := by
  rw [disconnectSerial, if_pos (by rw [hp])]
  exact ⟨rfl, rfl, rfl, rfl, rfl, rfl, rfl, rfl, rfl⟩

/-- Witness for the amended C9 at a concrete connected state. -/
theorem c9_disconnect_clears_amended_witness :
    (disconnectSerial ⟨true, false, true, some 60, ⟨[1], [2], [3], [4]⟩⟩).bufs =
      ⟨[], [], [], []⟩ ∧
    (disconnectSerial ⟨true, false, true, some 60, ⟨[1], [2], [3], [4]⟩⟩).port = false ∧
    (disconnectSerial ⟨true, false, true, some 60, ⟨[1], [2], [3], [4]⟩⟩).bpm = none ∧
    (connectOpen (disconnectSerial ⟨true, false, true, some 60,
      ⟨[1], [2], [3], [4]⟩⟩)).bufs = ⟨[], [], [], []⟩ ∧
    (connectOpen (disconnectSerial ⟨true, false, true, some 60,
      ⟨[1], [2], [3], [4]⟩⟩)).calibrating = true ∧
    (serialCatchHandler ⟨true, false, true, some 60, ⟨[1], [2], [3], [4]⟩⟩).bufs =
      (⟨true, false, true, some 60, ⟨[1], [2], [3], [4]⟩⟩ : AppState).bufs ∧
    (serialCatchHandler ⟨true, false, true, some 60, ⟨[1], [2], [3], [4]⟩⟩).calibrating =
      false ∧
    (serialCatchHandler ⟨true, false, true, some 60, ⟨[1], [2], [3], [4]⟩⟩).port =
      (⟨true, false, true, some 60, ⟨[1], [2], [3], [4]⟩⟩ : AppState).port ∧
    (serialCatchHandler ⟨true, false, true, some 60, ⟨[1], [2], [3], [4]⟩⟩).monitoring =
      (⟨true, false, true, some 60, ⟨[1], [2], [3], [4]⟩⟩ : AppState).monitoring :=
  c9_disconnect_clears_amended ⟨true, false, true, some 60, ⟨[1], [2], [3], [4]⟩⟩ rfl

/-- C10: the Record Parser accepts numeric prefixes: a bpm field like
72.9 or 72x parses to the leading integer 72, which the ingestion guard
treats as a present positive bpm (pushing a beat timestamp); a lead
field like 0.1a parses to the leading float 1/10 and the line is
accepted; a field with no parsable numeric prefix makes the bpm or
irregularity absent, and in a lead position makes the line be discarded;
a line is discarded exactly when a lead field has no numeric prefix. -/
theorem c10_record_parser_numeric_prefixes :
    jsParseInt "72.9".data = some 72 ∧
    jsParseInt "72x".data = some 72 ∧
    jsParseInt "abc".data = none ∧
    jsParseFloat "0.1a".data = some (1/10) ∧
    jsParseFloat "x1".data = none ∧
    parseDataLine "0.1a,0.2,72.9".data = some ⟨1/10, 1/5, some 72, none⟩ ∧
    parseDataLine "x1,0.2".data = none ∧
    (ingestReading ⟨[], [], [], []⟩ (1/10) (1/5) (some 72) none 1000).beats = [1000] ∧
    (∀ (p0 p1 : List Char) (rest : List (List Char)),
      parseParts (p0 :: p1 :: rest) = none ↔
        (jsParseFloat p0 = none ∨ jsParseFloat p1 = none)) ∧
    (∀ (p0 p1 p2 : List Char) (rest : List (List Char)) (r : ParsedLine),
      parseParts (p0 :: p1 :: p2 :: rest) = some r →
        r.bpm = jsParseInt p2 ∧ r.irr = rest.head?.bind jsParseFloat) := by
  refine ⟨by decide, by decide, by decide, ?_, by decide, ?_, ?_, rfl, ?_, ?_⟩
  · simp [jsParseFloat, parseFloatNoSign, expVal, expValSigned, isWs, isDigitC,
      decToNat, digToNat]
  · have hs : jsSplit ',' "0.1a,0.2,72.9".data = ["0.1a".data, "0.2".data, "72.9".data] := by
      decide
    rw [parseDataLine, hs, parseParts]
    simp [jsParseFloat, parseFloatNoSign, expVal, expValSigned, isWs, isDigitC,
      decToNat, digToNat, jsParseInt, parseIntNoSign]
    norm_num
  · have hs : jsSplit ',' "x1,0.2".data = ["x1".data, "0.2".data] := by decide
    rw [parseDataLine, hs, parseParts]
    simp [jsParseFloat, parseFloatNoSign, isWs, isDigitC]
  · intro p0 p1 rest
    rw [parseParts]
    cases h0 : jsParseFloat p0 <;> cases h1 : jsParseFloat p1 <;> simp
  · intro p0 p1 p2 rest r h
    rw [parseParts] at h
    cases h0 : jsParseFloat p0 <;> rw [h0] at h
    · simp at h
    · cases h1 : jsParseFloat p1 <;> rw [h1] at h
      · simp at h
      · simp only [Option.some_inj] at h
        rw [← h]
        exact ⟨rfl, rfl⟩

/-- Witness for C10 at the concrete parts 1, 2 and 72x. -/
theorem c10_record_parser_numeric_prefixes_witness :
    (⟨1, 2, some 72, none⟩ : ParsedLine).bpm = jsParseInt "72x".data ∧
    (⟨1, 2, some 72, none⟩ : ParsedLine).irr =
      ([] : List (List Char)).head?.bind jsParseFloat :=
  (c10_record_parser_numeric_prefixes.2.2.2.2.2.2.2.2.2) "1".data "2".data "72x".data []
    ⟨1, 2, some 72, none⟩
    (by
      rw [parseParts]
      simp [jsParseFloat, parseFloatNoSign, expVal, expValSigned, isWs, isDigitC,
        decToNat, digToNat, jsParseInt, parseIntNoSign])
